import Mathlib

set_option maxRecDepth 8000

namespace BT

/-- Outcome of a Go function call in the embedding: a normal return (`ok`),
an error return (`err`, the function returned a non-nil `error`), a runtime
panic (`crash`, e.g. a slice-bounds violation or a failed type assertion),
or fuel exhaustion (`nofuel`, an artifact of the fuel-based embedding of
the recursive decoder; never reached in any evaluation below). -/
inductive GoRes (α : Type) where
  | ok : α → GoRes α
  | err : GoRes α
  | crash : GoRes α
  | nofuel : GoRes α
deriving DecidableEq

/-- Sequencing of Go results: propagate errors, panics and fuel exhaustion. -/
def GoRes.bind : GoRes α → (α → GoRes β) → GoRes β
  | .ok a, f => f a
  | .err, _ => .err
  | .crash, _ => .crash
  | .nofuel, _ => .nofuel

/-- Replace the value component of a decoder result, keeping the consumed
byte count. Models wrapping the decoded Go `any` into a variant. -/
def GoRes.mapVal (f : α → β) : GoRes (α × Nat) → GoRes (β × Nat)
  | .ok (a, n) => .ok (f a, n)
  | .err => .err
  | .crash => .crash
  | .nofuel => .nofuel

/-- The dynamic value tree produced by the bencoding decoder
(`src/unnamed/part_001`): Go `string`, `int`, `[]any` and `map[string]any`.
The Go map is represented as an association list with distinct keys
(`insertAssoc` below preserves this). -/
inductive Benc where
  | str : String → Benc
  | int : Int → Benc
  | list : List Benc → Benc
  | dict : List (String × Benc) → Benc

/-- Models `strconv.Atoi`: an optional sign followed by at least one
decimal digit; anything else is an error (`none`). Integer overflow is not
modelled; all inputs of interest are small. -/
def goAtoi (s : List Char) : Option Int :=
  match s with
  | [] => none
  | c :: rest =>
    let digits := if c = '-' ∨ c = '+' then rest else s
    let neg := c = '-'
    if digits ≠ [] ∧ digits.all Char.isDigit then
      let v : Nat := digits.foldl (fun a d => a * 10 + (d.toNat - 48)) 0
      some (if neg then -(v : Int) else (v : Int))
    else none

/-- Models `decodeString` from `src/unnamed/part_001` lines 26-41.
`strings.IndexByte` returning -1 makes the Go code evaluate
`bencodedString[:-1]`, which panics; a declared length that is negative or
runs past the end of the input makes `bencodedString[i+1 : i+1+length]`
panic. A length prefix that `strconv.Atoi` rejects is the only error
return. -/
def decodeString (s : List Char) : GoRes (String × Nat) :=
  match List.findIdx? (fun c => c = ':') s with
  | none => .crash
  | some ci =>
    let lengthStr := s.take ci
    match goAtoi lengthStr with
    | none => .err
    | some len =>
      if 0 ≤ len ∧ ci + 1 + len.toNat ≤ s.length then
        .ok (((s.drop (ci + 1)).take len.toNat).asString, len.toNat + ci + 1)
      else .crash

/-- Models `decodeInteger` from `src/unnamed/part_001` lines 45-61.
When no `'e'` is found, `firstEIndex` is -1, the `== 0` guard does not
fire, and `bencodedString[1:-1]` panics. `firstEIndex == 0` is the
explicit "Invalid encoded integer" error; a body `strconv.Atoi` rejects is
also an error. -/
def decodeInteger (s : List Char) : GoRes (Int × Nat) :=
  match List.findIdx? (fun c => c = 'e') s with
  | none => .crash
  | some 0 => .err
  | some ei =>
    let intStr := (s.drop 1).take (ei - 1)
    match goAtoi intStr with
    | none => .err
    | some v => .ok (v, intStr.length + 2)

/-- Models the Go map assignment `elements[key] = val`: replace the binding
if the key is present, otherwise append it. -/
def insertAssoc (m : List (String × Benc)) (k : String) (v : Benc) :
    List (String × Benc) :=
  if m.any (fun p => p.1 = k) then
    m.map (fun p => if p.1 = k then (k, v) else p)
  else m ++ [(k, v)]

mutual

/-- Models `decodeValue` from `src/unnamed/part_001` lines 11-22: dispatch
on the first byte (`'i'`, `'l'`, `'d'`, anything else goes to
`decodeString`). Indexing `bencodedString[0]` on an empty string panics.
The `fuel` argument only bounds recursion depth. -/
def decodeValue (fuel : Nat) (s : List Char) : GoRes (Benc × Nat) :=
  match fuel with
  | 0 => .nofuel
  | fuel + 1 =>
    match s with
    | [] => .crash
    | c :: _ =>
      if c = 'i' then (decodeInteger s).mapVal Benc.int
      else if c = 'l' then (decodeList fuel s).mapVal Benc.list
      else if c = 'd' then (decodeDictionary fuel s).mapVal Benc.dict
      else (decodeString s).mapVal Benc.str

/-- Models `decodeList` from `src/unnamed/part_001` lines 65-93: drop the
leading byte (on an empty string `bencodedString[1:]` panics), then loop;
the final count adds 2 for `'l'` and `'e'`. -/
def decodeList (fuel : Nat) (s : List Char) : GoRes (List Benc × Nat) :=
  match fuel with
  | 0 => .nofuel
  | fuel + 1 =>
    match s with
    | [] => .crash
    | _ :: rest =>
      (decodeListLoop fuel rest [] 0).bind fun r => .ok (r.1, r.2 + 2)

/-- The `for` loop of `decodeList`: `elementsStr[0]` on an exhausted input
panics; an `'e'` terminates; otherwise decode one element, advance by its
count and accumulate. -/
def decodeListLoop (fuel : Nat) (s : List Char) (acc : List Benc)
    (processed : Nat) : GoRes (List Benc × Nat) :=
  match fuel with
  | 0 => .nofuel
  | fuel + 1 =>
    match s with
    | [] => .crash
    | c :: _ =>
      if c = 'e' then .ok (acc, processed)
      else
        (decodeValue fuel s).bind fun r =>
          decodeListLoop fuel (s.drop r.2) (acc ++ [r.1]) (processed + r.2)

/-- Models `decodeDictionary` from `src/unnamed/part_001` lines 97-135:
drop the leading byte unconditionally, then loop over key-value pairs;
the final count adds 2 for `'d'` and `'e'`. -/
def decodeDictionary (fuel : Nat) (s : List Char) :
    GoRes (List (String × Benc) × Nat) :=
  match fuel with
  | 0 => .nofuel
  | fuel + 1 =>
    match s with
    | [] => .crash
    | _ :: rest =>
      (decodeDictLoop fuel rest [] 0).bind fun r => .ok (r.1, r.2 + 2)

/-- The `for` loop of `decodeDictionary`: decode a key with `decodeString`
(whatever the bytes are), then a value with `decodeValue`, and store the
pair with map-assignment semantics. -/
def decodeDictLoop (fuel : Nat) (s : List Char) (acc : List (String × Benc))
    (processed : Nat) : GoRes (List (String × Benc) × Nat) :=
  match fuel with
  | 0 => .nofuel
  | fuel + 1 =>
    match s with
    | [] => .crash
    | c :: _ =>
      if c = 'e' then .ok (acc, processed)
      else
        (decodeString s).bind fun kr =>
          let s1 := s.drop kr.2
          (decodeValue fuel s1).bind fun vr =>
            decodeDictLoop fuel (s1.drop vr.2) (insertAssoc acc kr.1 vr.1)
              (processed + kr.2 + vr.2)

end

/-- Models `bencodeString`: `fmt.Sprintf` of the length, a colon and the
bytes. -/
def bencodeString (s : String) : String :=
  toString s.length ++ ":" ++ s

/-- Models `bencodeInteger`: `fmt.Sprintf` of `i`, the decimal value and
`e`. -/
def bencodeInteger (i : Int) : String :=
  "i" ++ toString i ++ "e"

/-- Insertion of one key-value pair into a key-sorted list; building block
of `sortByKey`. -/
def insertSortedKey (p : String × Benc) :
    List (String × Benc) → List (String × Benc)
  | [] => [p]
  | q :: rest => if q.1 < p.1 then q :: insertSortedKey p rest else p :: q :: rest

/-- Models the `sort.Slice(keys, keys[i] < keys[j])` step of `bencodeMap`
together with the subsequent lookups `m[k]`: the entries ordered by
strictly ascending key (keys are distinct in any decoded map). -/
def sortByKey (m : List (String × Benc)) : List (String × Benc) :=
  m.foldr insertSortedKey []

theorem mem_insertSortedKey {q p : String × Benc} {l : List (String × Benc)}
    (h : q ∈ insertSortedKey p l) : q = p ∨ q ∈ l := by
  induction l with
  | nil => simpa [insertSortedKey] using h
  | cons a rest ih =>
    simp only [insertSortedKey] at h
    by_cases hc : a.1 < p.1
    · simp only [if_pos hc, List.mem_cons] at h
      rcases h with h | h
      · exact Or.inr (by simp [h])
      · rcases ih h with h | h
        · exact Or.inl h
        · exact Or.inr (List.mem_cons_of_mem a h)
    · simp only [if_neg hc, List.mem_cons] at h
      rcases h with h | h | h
      · exact Or.inl h
      · exact Or.inr (by simp [h])
      · exact Or.inr (List.mem_cons_of_mem a h)

theorem mem_sortByKey {q : String × Benc} {m : List (String × Benc)}
    (h : q ∈ sortByKey m) : q ∈ m := by
  induction m with
  | nil => simp [sortByKey] at h
  | cons a rest ih =>
    simp only [sortByKey, List.foldr_cons] at h
    rcases mem_insertSortedKey h with h | h
    · simp [h]
    · exact List.mem_cons_of_mem a (ih h)

/-- Models `bencodeValue` from `src/unnamed/part_001` lines 138-195,
including `bencodeList` and `bencodeMap`. In `bencodeList` the Go loop is
`for v := range l`, which ranges over the INDICES of the slice, so each
`v` is an `int` and the recursive `bencodeValue(v)` takes the integer
case: the list elements themselves are never encoded. `bencodeMap` sorts
the keys lexicographically and encodes each key with its value. -/
def bencodeValue : Benc → String
  | .str s => bencodeString s
  | .int i => bencodeInteger i
  | .list l =>
    "l" ++ String.join ((List.range l.length).map fun v => bencodeInteger v)
      ++ "e"
  | .dict m =>
    "d" ++ String.join ((sortByKey m).attach.map fun p =>
      bencodeString p.1.1 ++ bencodeValue p.1.2) ++ "e"
termination_by v => sizeOf v
decreasing_by
  simp_wf
  have h1 : p.1 ∈ sortByKey m := p.2
  have h2 : p.1 ∈ m := mem_sortByKey h1
  have h3 : sizeOf p.1 < sizeOf m := List.sizeOf_lt_of_mem h2
  have h4 : sizeOf p.1.2 < sizeOf p.1 := by
    rcases p.1 with ⟨a, b⟩
    simp
  omega

/-- Message type constants from `src/cmd/mybittorrent/messaging.go`. -/
def UNCHOKE : Nat := 1

/-- INTERESTED message id. -/
def INTERESTED : Nat := 2

/-- BITFIELD message id. -/
def BITFIELD : Nat := 5

/-- REQUEST message id. -/
def REQUEST : Nat := 6

/-- PIECE message id. -/
def PIECE : Nat := 7

/-- EXTENSION message id. -/
def EXTENSION_MESSAGE : Nat := 20

/-- Models the `peerMessage` struct of `messaging.go`: a length prefix
(type byte plus payload), the message type byte and the payload bytes.
Bytes are Nat values below 256. -/
structure PeerMessage where
  length : Nat
  mType : Nat
  payload : List Nat
deriving DecidableEq

/-- Models `binary.BigEndian.Uint32` applied to a 4-byte buffer. -/
def beU32 (l : List Nat) : Nat :=
  l.foldl (fun a b => a * 256 + b) 0

/-- Big-endian byte expansion of a Go `uint32` conversion, as produced by
`binary.BigEndian.AppendUint32`. -/
def beBytes4 (n : Nat) : List Nat :=
  let m := n % 2 ^ 32
  [m / 2 ^ 24 % 256, m / 2 ^ 16 % 256, m / 2 ^ 8 % 256, m % 256]

/-- Models `receiveBytes` from `messaging.go` lines 44-53 over an input
stream: `io.ReadFull` either fills the whole buffer or returns an error.
Returns the bytes read and the unread remainder of the stream. -/
def receiveBytes (stream : List Nat) (size : Nat) :
    GoRes (List Nat × List Nat) :=
  if size ≤ stream.length then .ok (stream.take size, stream.drop size)
  else .err

/-- Models `newPeerMessage` from `messaging.go` lines 104-113: `b[1:]` on
a buffer whose length and capacity are 0 panics (slice bound 1 exceeds the
capacity), otherwise the first byte is the type and the rest the payload,
with `length` recomputed as payload length + 1. -/
def newPeerMessage (b : List Nat) : GoRes PeerMessage :=
  match b with
  | [] => .crash
  | t :: payload => .ok { length := payload.length + 1, mType := t, payload := payload }

/-- Models `receivePeerMessage` from `messaging.go` lines 56-72: read a
4-byte big-endian length prefix, read that many bytes, and build the
message. There is no keep-alive loop: a zero length goes straight to
`newPeerMessage` with an empty buffer. -/
def receivePeerMessage (stream : List Nat) : GoRes (PeerMessage × List Nat) :=
  (receiveBytes stream 4).bind fun br =>
    let msgLength := beU32 br.1
    (receiveBytes br.2 msgLength).bind fun mr =>
      (newPeerMessage mr.1).bind fun m => .ok (m, mr.2)

/-- The bytes of the protocol identifier `"BitTorrent protocol"`. -/
def protocolBytes : List Nat :=
  "BitTorrent protocol".toList.map Char.toNat

/-- Models `buildHandshakeMessage` from `messaging.go` lines 116-133:
a 19 byte, the protocol string, 8 reserved bytes (index 5 set to 16 when
extensions are supported), the infohash and the peer id. -/
def buildHandshakeMessage (peerId infoHash : List Nat)
    (supportExtensions : Bool) : List Nat :=
  let reservedBytes : List Nat := List.replicate 8 0
  let reservedBytes :=
    if supportExtensions then reservedBytes.set 5 16 else reservedBytes
  [19] ++ protocolBytes ++ reservedBytes ++ infoHash ++ peerId

/-- Models `buildRequestMessage` from `messaging.go` lines 142-155: a
REQUEST message whose 12-byte payload is the three big-endian u32 fields
index, begin and length. -/
def buildRequestMessage (pieceIndex begin blockLength : Nat) : PeerMessage :=
  { length := 13, mType := REQUEST,
    payload := beBytes4 pieceIndex ++ beBytes4 begin ++ beBytes4 blockLength }

/-- Models the piece-length computation of `getPieceFromPeer`
(`src/unnamed/part_000` lines 378-383): the configured piece length except
for the last piece, for which the code computes `length % pieceLength`.
Go `int` is modelled as `Int` and the Go `%` operator truncates toward
zero, which is `Int.tmod`. -/
def computedPieceLength (length pieceLength nPieces pieceIndex : Int) : Int :=
  if pieceIndex = nPieces - 1 then Int.tmod length pieceLength else pieceLength

/-- Models the block loop of `getPieceFromPeer` (`src/unnamed/part_000`
lines 385-403): the sequence of (begin, blockLength) pairs requested for a
piece of the given length. `nBlocks` is `int(math.Ceil(l/16384))`, which
for any length below `2 ^ 53` is the exact ceiling computed here. -/
def blockPlan (pieceLength : Nat) : List (Nat × Nat) :=
  let blockSize := 16384
  let nBlocks := (pieceLength + (blockSize - 1)) / blockSize
  (List.range nBlocks).map fun i =>
    (i * blockSize,
     if i = nBlocks - 1 then pieceLength - i * blockSize else blockSize)

/-- The REQUEST messages sent by the block loop of `getPieceFromPeer`, in
order: one `buildRequestMessage` per planned block. -/
def blockRequests (pieceIndex pieceLength : Nat) : List PeerMessage :=
  (blockPlan pieceLength).map fun p => buildRequestMessage pieceIndex p.1 p.2

/-- Models the handling of one received PIECE message in
`getPieceFromPeer` (`src/unnamed/part_000` lines 410-425): a non-PIECE
type is an error return; otherwise `piece.payload[8:]` is appended to the
piece buffer (panicking when the payload is shorter than 8 bytes). The
index and begin fields of the payload are never inspected. -/
def processPieceMessage (piece : PeerMessage) (pieceData : List Nat) :
    GoRes (List Nat) :=
  if piece.mType ≠ PIECE then .err
  else if piece.payload.length < 8 then .crash
  else .ok (pieceData ++ piece.payload.drop 8)

/-- Models a Go string/slice expression `s[a:b]`: defined when
`a ≤ b ≤ len(s)`, a panic otherwise. -/
def goSliceN (s : List Nat) (a b : Nat) : Option (List Nat) :=
  if a ≤ b ∧ b ≤ s.length then some ((s.drop a).take (b - a)) else none

/-- The `fmt.Sprintf` formatting of one peer endpoint from its 6 bytes:
`"a.b.c.d:p"` with `p` the big-endian 16-bit port. -/
def addrFormat (a b c d p q : Nat) : String :=
  toString a ++ "." ++ toString b ++ "." ++ toString c ++ "." ++ toString d
    ++ ":" ++ toString (p * 256 + q)

/-- One iteration of the loop of `buildPeerAddresses`
(`src/cmd/mybittorrent/main.go` lines 17-38): take the i-th 6-byte group,
split it into the 4 IP bytes and the 2 port bytes, and format the
endpoint. `none` models a Go panic from an out-of-bounds slice or index;
the loop bound makes all accesses in bounds. -/
def peerAddrAt (s : List Nat) (i : Nat) : Option String :=
  (goSliceN s (i * 6) (i * 6 + 6)).bind fun peer =>
  (goSliceN peer 0 4).bind fun ipSlice =>
  (goSliceN peer 4 peer.length).bind fun portSlice =>
  (ipSlice.get? 0).bind fun a =>
  (ipSlice.get? 1).bind fun b =>
  (ipSlice.get? 2).bind fun c =>
  (ipSlice.get? 3).bind fun d =>
  (portSlice.get? 0).bind fun p =>
  (portSlice.get? 1).bind fun q =>
  some (addrFormat a b c d p q)

/-- The ascending loop of `buildPeerAddresses`, appending one formatted
endpoint per iteration. -/
def buildPeerAddressesLoop (s : List Nat) : Nat → Option (List String)
  | 0 => some []
  | i + 1 =>
    (buildPeerAddressesLoop s i).bind fun acc =>
      (peerAddrAt s i).bind fun addr => some (acc ++ [addr])

/-- Models `buildPeerAddresses` from `src/cmd/mybittorrent/main.go` lines
17-38: `n := len(peersStr) / 6` groups, one endpoint string each. -/
def buildPeerAddresses (s : List Nat) : Option (List String) :=
  buildPeerAddressesLoop s (s.length / 6)

/-- Models the `info` struct of `src/unnamed/part_000` as populated by
`magnetInfo`. -/
structure TorrentInfo where
  length : Int
  name : String
  nPieces : Nat
  pieceLength : Int
  pieces : List String
deriving DecidableEq

/-- Models a Go map read `m[k]`: the value when present, otherwise the
zero value `nil` (represented by `none`). -/
def lookupBenc (m : List (String × Benc)) (k : String) : Option Benc :=
  (m.find? (fun p => p.1 = k)).map Prod.snd

/-- Models a Go type assertion `v.(string)`: panics unless the dynamic
value is a string. -/
def assertStr : Option Benc → GoRes String
  | some (.str s) => .ok s
  | _ => .crash

/-- Models a Go type assertion `v.(int)`: panics unless the dynamic value
is an integer. -/
def assertInt : Option Benc → GoRes Int
  | some (.int i) => .ok i
  | _ => .crash

/-- Models the metadata-processing tail of `magnetInfo`
(`src/unnamed/part_000` lines 322-345), starting from the received data
message payload: drop the 1-byte extension id (`payload[1:]`, panicking on
an empty payload), decode the bencoded header to learn `usedBytes`, decode
the metadata dictionary at `payload[usedBytes+1:]` (its error result is
not checked in the source; a failed decode leaves a nil map whose
`["pieces"].(string)` assertion panics), split `pieces` into 20-byte
hashes, and populate the torrent info. The torrent infohash is passed in,
exactly as `t.infoHash` is available to the Go method, and is never used:
no SHA-1 verification of the metadata bytes takes place. -/
def magnetInfoMetadata (infoHash : List Nat) (fuel : Nat)
    (payload : List Char) : GoRes TorrentInfo :=
  match payload with
  | [] => .crash
  | _ :: afterId =>
    match decodeDictionary fuel afterId with
    | .ok (_, usedBytes) =>
      if usedBytes + 1 ≤ payload.length then
        match decodeDictionary fuel (payload.drop (usedBytes + 1)) with
        | .ok (metadata, _) =>
          (assertStr (lookupBenc metadata "pieces")).bind fun piecesStr =>
            let n := piecesStr.length / 20
            let pieces := (List.range n).map fun i =>
              ((piecesStr.toList.drop (i * 20)).take 20).asString
            (assertInt (lookupBenc metadata "length")).bind fun len =>
              (assertStr (lookupBenc metadata "name")).bind fun nm =>
                (assertInt (lookupBenc metadata "piece length")).bind fun pl =>
                  .ok { length := len, name := nm, nPieces := n,
                        pieceLength := pl, pieces := pieces }
        | .err => .crash
        | .crash => .crash
        | .nofuel => .nofuel
      else .crash
    | .err => .err
    | .crash => .crash
    | .nofuel => .nofuel

/-- C1: decoding the well-formed bencoded input `l5:helloe` (a list whose
dictionaries trivially have sorted keys) and re-encoding it yields
`li0ee`, not the original input: `bencodeList` iterates `for v := range l`
over the slice INDICES, so the decoded list elements are not emitted in
their original order (they are not emitted at all). The round-trip
property claimed for all well-formed inputs fails. -/
theorem decode_then_encode_list_differs :
    decodeValue 30 ("l5:helloe".toList) = .ok (.list [.str "hello"], 9) ∧
    bencodeValue (.list [.str "hello"]) = "li0ee" ∧
    bencodeValue (.list [.str "hello"]) ≠ "l5:helloe" := by
  have h : bencodeValue (.list [.str "hello"]) = "li0ee" := by
    rw [bencodeValue]
    rfl
  refine ⟨rfl, h, ?_⟩
  rw [h]
  decide

/-- C2: for a torrent whose total length 32768 is an exact positive
multiple of the piece length 16384 (2 pieces), the engine computes the
last piece length as `32768 % 16384 = 0`, whereas
`total_length - (piece_count - 1) * piece_length = 16384`; the computed
value is neither equal to that formula nor in `(0, piece_length]`. -/
theorem lastPieceLength_zero_on_exact_multiple :
    computedPieceLength 32768 16384 2 1 = 0 ∧
    (32768 : Int) - (2 - 1) * 16384 = 16384 ∧
    computedPieceLength 32768 16384 2 1 ≠ (32768 : Int) - (2 - 1) * 16384 ∧
    ¬ 0 < computedPieceLength 32768 16384 2 1 := by
  refine ⟨by decide, by decide, by decide, by decide⟩

/-- One non-final iteration of the dictionary-decoding loop, used to
evaluate concrete decodes step by step. -/
theorem decodeDictLoop_cons_step (fuel fuel1 : Nat) (c : Char)
    (cs s1 s2 : List Char) (acc : List (String × Benc)) (processed : Nat)
    (key : String) (cnt cnt2 : Nat) (v : Benc)
    (hfuel : fuel = fuel1 + 1) (hc : ¬ c = 'e')
    (hk : decodeString (c :: cs) = .ok (key, cnt))
    (hs1 : (c :: cs).drop cnt = s1)
    (hv : decodeValue fuel1 s1 = .ok (v, cnt2))
    (hs2 : s1.drop cnt2 = s2) :
    decodeDictLoop fuel (c :: cs) acc processed =
      decodeDictLoop fuel1 s2 (insertAssoc acc key v)
        (processed + cnt + cnt2) := by
  subst hfuel
  simp only [decodeDictLoop, if_neg hc, hk, GoRes.bind, hs1, hv, hs2]

/-- The final iteration of the dictionary-decoding loop: the next byte is
the closing marker. -/
theorem decodeDictLoop_end (fuel fuel1 : Nat) (cs : List Char)
    (acc : List (String × Benc)) (processed : Nat)
    (hfuel : fuel = fuel1 + 1) :
    decodeDictLoop fuel ('e' :: cs) acc processed = .ok (acc, processed) := by
  subst hfuel
  simp [decodeDictLoop]

/-- Step-by-step evaluation of the metadata dictionary decode used by the
C3 evaluation below. -/
theorem c3MetaDecode :
    decodeDictionary 20
      ("d6:lengthi20e4:name1:x12:piece lengthi16e6:pieces20:AAAAAAAAAAAAAAAAAAAAe".toList) =
      .ok ([("length", Benc.int 20), ("name", Benc.str "x"),
            ("piece length", Benc.int 16),
            ("pieces", Benc.str "AAAAAAAAAAAAAAAAAAAA")], 73) := by
  rw [show
    ("d6:lengthi20e4:name1:x12:piece lengthi16e6:pieces20:AAAAAAAAAAAAAAAAAAAAe".toList)
      = 'd' :: '6' ::
        (":lengthi20e4:name1:x12:piece lengthi16e6:pieces20:AAAAAAAAAAAAAAAAAAAAe".toList)
    from rfl]
  rw [show (20 : Nat) = 19 + 1 from rfl]
  simp only [decodeDictionary]
  rw [decodeDictLoop_cons_step 19 18 '6'
    (":lengthi20e4:name1:x12:piece lengthi16e6:pieces20:AAAAAAAAAAAAAAAAAAAAe".toList)
    ('i' :: ("20e4:name1:x12:piece lengthi16e6:pieces20:AAAAAAAAAAAAAAAAAAAAe".toList))
    ('4' :: (":name1:x12:piece lengthi16e6:pieces20:AAAAAAAAAAAAAAAAAAAAe".toList))
    [] 0 "length" 8 4 (Benc.int 20) rfl (by decide) rfl rfl rfl rfl]
  rw [decodeDictLoop_cons_step 18 17 '4'
    (":name1:x12:piece lengthi16e6:pieces20:AAAAAAAAAAAAAAAAAAAAe".toList)
    ('1' :: (":x12:piece lengthi16e6:pieces20:AAAAAAAAAAAAAAAAAAAAe".toList))
    ('1' :: ("2:piece lengthi16e6:pieces20:AAAAAAAAAAAAAAAAAAAAe".toList))
    _ _ "name" 6 3 (Benc.str "x") rfl (by decide) rfl rfl rfl rfl]
  rw [decodeDictLoop_cons_step 17 16 '1'
    ("2:piece lengthi16e6:pieces20:AAAAAAAAAAAAAAAAAAAAe".toList)
    ('i' :: ("16e6:pieces20:AAAAAAAAAAAAAAAAAAAAe".toList))
    ('6' :: (":pieces20:AAAAAAAAAAAAAAAAAAAAe".toList))
    _ _ "piece length" 15 4 (Benc.int 16) rfl (by decide) rfl rfl rfl rfl]
  rw [decodeDictLoop_cons_step 16 15 '6'
    (":pieces20:AAAAAAAAAAAAAAAAAAAAe".toList)
    ('2' :: ("0:AAAAAAAAAAAAAAAAAAAAe".toList))
    ('e' :: ([] : List Char))
    _ _ "pieces" 8 23 (Benc.str "AAAAAAAAAAAAAAAAAAAA") rfl (by decide) rfl rfl rfl rfl]
  rw [decodeDictLoop_end 15 14 [] _ _ rfl]
  rfl

/-- Evaluation of the metadata-processing step of `magnetInfo` on a
well-formed metadata message, for an arbitrary torrent infohash: the
torrent info is populated whatever the infohash is. -/
theorem c3Eval (ih : List Nat) :
    magnetInfoMetadata ih 20
      (("Zd8:msg_typei1e5:piecei0ee" ++
        "d6:lengthi20e4:name1:x12:piece lengthi16e6:pieces20:AAAAAAAAAAAAAAAAAAAAe").toList) =
      .ok { length := 20, name := "x", nPieces := 1, pieceLength := 16,
            pieces := ["AAAAAAAAAAAAAAAAAAAA"] } := by
  have hHeader : decodeDictionary 20
      (("d8:msg_typei1e5:piecei0ee" ++
        "d6:lengthi20e4:name1:x12:piece lengthi16e6:pieces20:AAAAAAAAAAAAAAAAAAAAe").toList) =
      .ok ([("msg_type", Benc.int 1), ("piece", Benc.int 0)], 25) := by
    rw [show
      (("d8:msg_typei1e5:piecei0ee" ++
        "d6:lengthi20e4:name1:x12:piece lengthi16e6:pieces20:AAAAAAAAAAAAAAAAAAAAe").toList)
        = 'd' :: '8' ::
          ((":msg_typei1e5:piecei0ee" ++
            "d6:lengthi20e4:name1:x12:piece lengthi16e6:pieces20:AAAAAAAAAAAAAAAAAAAAe").toList)
      from rfl]
    rw [show (20 : Nat) = 19 + 1 from rfl]
    simp only [decodeDictionary]
    rw [decodeDictLoop_cons_step 19 18 '8'
      ((":msg_typei1e5:piecei0ee" ++
        "d6:lengthi20e4:name1:x12:piece lengthi16e6:pieces20:AAAAAAAAAAAAAAAAAAAAe").toList)
      ('i' :: (("1e5:piecei0ee" ++
        "d6:lengthi20e4:name1:x12:piece lengthi16e6:pieces20:AAAAAAAAAAAAAAAAAAAAe").toList))
      ('5' :: ((":piecei0ee" ++
        "d6:lengthi20e4:name1:x12:piece lengthi16e6:pieces20:AAAAAAAAAAAAAAAAAAAAe").toList))
      [] 0 "msg_type" 10 3 (Benc.int 1) rfl (by decide) rfl rfl rfl rfl]
    rw [decodeDictLoop_cons_step 18 17 '5'
      ((":piecei0ee" ++
        "d6:lengthi20e4:name1:x12:piece lengthi16e6:pieces20:AAAAAAAAAAAAAAAAAAAAe").toList)
      ('i' :: (("0ee" ++
        "d6:lengthi20e4:name1:x12:piece lengthi16e6:pieces20:AAAAAAAAAAAAAAAAAAAAe").toList))
      ('e' :: (("" ++
        "d6:lengthi20e4:name1:x12:piece lengthi16e6:pieces20:AAAAAAAAAAAAAAAAAAAAe").toList))
      _ _ "piece" 7 3 (Benc.int 0) rfl (by decide) rfl rfl rfl rfl]
    rw [decodeDictLoop_end 17 16 _ _ _ rfl]
    rfl
  rw [show
    (("Zd8:msg_typei1e5:piecei0ee" ++
      "d6:lengthi20e4:name1:x12:piece lengthi16e6:pieces20:AAAAAAAAAAAAAAAAAAAAe").toList)
      = 'Z' ::
        (("d8:msg_typei1e5:piecei0ee" ++
          "d6:lengthi20e4:name1:x12:piece lengthi16e6:pieces20:AAAAAAAAAAAAAAAAAAAAe").toList)
    from rfl]
  simp only [magnetInfoMetadata]
  rw [hHeader]
  have hdrop : ('Z' ::
      (("d8:msg_typei1e5:piecei0ee" ++
        "d6:lengthi20e4:name1:x12:piece lengthi16e6:pieces20:AAAAAAAAAAAAAAAAAAAAe").toList)).drop
        (25 + 1) =
      ("d6:lengthi20e4:name1:x12:piece lengthi16e6:pieces20:AAAAAAAAAAAAAAAAAAAAe".toList) := rfl
  have hlen : 25 + 1 ≤ ('Z' ::
      (("d8:msg_typei1e5:piecei0ee" ++
        "d6:lengthi20e4:name1:x12:piece lengthi16e6:pieces20:AAAAAAAAAAAAAAAAAAAAe").toList)).length := by
    decide
  simp only []
  rw [if_pos hlen, hdrop, c3MetaDecode]
  simp only []
  rfl

/-- C3: the metadata-processing step of `magnetInfo` never consults the
torrent infohash: its result is the same for every infohash value, and on
a well-formed metadata message it populates the torrent info for EVERY
infohash — including the (at least `2 ^ 160 - 1`) values that differ from
the SHA-1 of the metadata bytes. No `SHA-1(metadata) == infohash`
verification and no `InfohashMismatch` failure exist in the code. -/
theorem magnetInfo_never_checks_infohash :
    (∀ (ih₁ ih₂ : List Nat) (fuel : Nat) (payload : List Char),
      magnetInfoMetadata ih₁ fuel payload = magnetInfoMetadata ih₂ fuel payload) ∧
    (∀ infoHash : List Nat,
      magnetInfoMetadata infoHash 20
        (("Zd8:msg_typei1e5:piecei0ee" ++
          "d6:lengthi20e4:name1:x12:piece lengthi16e6:pieces20:AAAAAAAAAAAAAAAAAAAAe").toList) =
        .ok { length := 20, name := "x", nPieces := 1, pieceLength := 16,
              pieces := ["AAAAAAAAAAAAAAAAAAAA"] }) :=
  ⟨fun _ _ _ _ => rfl, fun ih => c3Eval ih⟩

/-- Witness for C3: the metadata is accepted, in particular, with an
all-zero 20-byte infohash, which is not the SHA-1 of the metadata bytes. -/
theorem magnetInfo_never_checks_infohash_witness :
    magnetInfoMetadata (List.replicate 20 0) 20
      (("Zd8:msg_typei1e5:piecei0ee" ++
        "d6:lengthi20e4:name1:x12:piece lengthi16e6:pieces20:AAAAAAAAAAAAAAAAAAAAe").toList) =
      .ok { length := 20, name := "x", nPieces := 1, pieceLength := 16,
            pieces := ["AAAAAAAAAAAAAAAAAAAA"] } :=
  magnetInfo_never_checks_infohash.2 (List.replicate 20 0)

/-- C4 counterexample: a message of type PIECE whose payload encodes index
99 and begin 99 — neither equal to the requested piece index 0 and block
offset 0 — is appended to the piece buffer all the same: the engine does
not validate the index and begin fields. -/
theorem pieceMessage_bad_index_begin_accepted :
    processPieceMessage
      { length := 12, mType := PIECE,
        payload := [0, 0, 0, 99, 0, 0, 0, 99, 1, 2, 3] } [] = .ok [1, 2, 3] ∧
    beU32 (([0, 0, 0, 99, 0, 0, 0, 99, 1, 2, 3] : List Nat).take 4) ≠ 0 ∧
    beU32 ((([0, 0, 0, 99, 0, 0, 0, 99, 1, 2, 3] : List Nat).drop 4).take 4) ≠ 0 := by
  exact ⟨rfl, by decide, by decide⟩

/-- C4 (amended): after receiving a message the engine validates only the
message type: a PIECE message has `payload[8:]` appended to the piece
buffer whatever its index and begin fields contain, and a non-PIECE
message is an error. -/
theorem processPieceMessage_checks_type_only (piece : PeerMessage)
    (pieceData : List Nat) :
    (piece.mType = PIECE → 8 ≤ piece.payload.length →
      processPieceMessage piece pieceData =
        .ok (pieceData ++ piece.payload.drop 8)) ∧
    (piece.mType ≠ PIECE → processPieceMessage piece pieceData = .err) := by
  constructor
  · intro ht hl
    have h8 : ¬ piece.payload.length < 8 := by omega
    simp [processPieceMessage, ht, h8]
  · intro ht
    simp [processPieceMessage, ht]

/-- Witness for C4: a PIECE message with junk header fields is appended;
a BITFIELD message is rejected with an error. -/
theorem processPieceMessage_checks_type_only_witness :
    processPieceMessage
      { length := 11, mType := 7,
        payload := [9, 9, 9, 9, 9, 9, 9, 9, 4, 5] } [1] = .ok [1, 4, 5] ∧
    processPieceMessage { length := 1, mType := 5, payload := [] } [] = .err := by
  constructor
  · exact (processPieceMessage_checks_type_only _ _).1 rfl (by decide)
  · exact (processPieceMessage_checks_type_only _ _).2 (by decide)

/-- C5: a frame whose 4-byte big-endian length prefix is 0 (a keep-alive)
is NOT tolerated: whatever bytes follow, `receivePeerMessage` reads an
empty message buffer and `newPeerMessage` panics on `b[1:]`; no re-read of
the next length prefix ever happens. -/
theorem keepAlive_receive_crashes (rest : List Nat) :
    receivePeerMessage (0 :: 0 :: 0 :: 0 :: rest) = .crash := by
  have h4 : 4 ≤ (0 :: 0 :: 0 :: 0 :: rest).length := by simp
  simp [receivePeerMessage, receiveBytes, GoRes.bind, h4, beU32, newPeerMessage]

/-- Witness for C5: a keep-alive followed by a well-formed UNCHOKE frame
still crashes the receive operation. -/
theorem keepAlive_receive_crashes_witness :
    receivePeerMessage [0, 0, 0, 0, 0, 0, 0, 1, 1] = .crash :=
  keepAlive_receive_crashes [0, 0, 0, 1, 1]

/-- C9 counterexample: on the input `x`, whose leading byte is not an
ASCII digit and not one of `i`, `l`, `d`, `decodeValue` does not return an
error: `strings.IndexByte` finds no colon and `bencodedString[:-1]`
panics. -/
theorem decodeValue_crashes_on_unknown_leading_byte :
    decodeValue 5 ("x".toList) = .crash ∧
    (GoRes.crash : GoRes (Benc × Nat)) ≠ .err := by
  exact ⟨rfl, by simp⟩

/-- C9 (amended): for a leading byte that is not a digit nor `i`, `l`,
`d`, `decodeValue` attempts string decoding, which returns an error only
when a colon is present and the prefix before it fails integer parsing
(`x:abc`); with no colon present it panics (`x`), and a signed numeric
prefix is even accepted as a string (`+5:abcde`). Truncated strings
(`5:ab`), integers missing their `e` (`i52`) and non-string dictionary
keys (`di1ei2ee`) also panic rather than returning an error; a non-numeric
integer body (`iabce`) does return an error. -/
theorem decodeValue_malformed_outcomes :
    decodeValue 5 ("x".toList) = .crash ∧
    decodeValue 5 ("x:abc".toList) = .err ∧
    decodeValue 5 ("+5:abcde".toList) = .ok (.str "abcde", 8) ∧
    decodeValue 5 ("5:ab".toList) = .crash ∧
    decodeValue 5 ("i52".toList) = .crash ∧
    decodeValue 5 ("iabce".toList) = .err ∧
    decodeValue 9 ("di1ei2ee".toList) = .crash := by
  exact ⟨rfl, rfl, rfl, rfl, rfl, rfl, rfl⟩

/-- C6: for 20-byte peer id and infohash, the handshake message is exactly
68 bytes: byte 0 is 19 (0x13), bytes 1..19 the protocol string, bytes
20..27 all zero except byte 25 which is 16 (0x10) exactly when extensions
are supported, bytes 28..47 the infohash and bytes 48..67 the peer id. -/
theorem buildHandshakeMessage_layout (peerId infoHash : List Nat)
    (ext : Bool) (hp : peerId.length = 20) (hih : infoHash.length = 20) :
    (buildHandshakeMessage peerId infoHash ext).length = 68 ∧
    (buildHandshakeMessage peerId infoHash ext).take 20 = 19 :: protocolBytes ∧
    ((buildHandshakeMessage peerId infoHash ext).drop 20).take 8 =
      [0, 0, 0, 0, 0, if ext then 16 else 0, 0, 0] ∧
    ((buildHandshakeMessage peerId infoHash ext).drop 28).take 20 = infoHash ∧
    (buildHandshakeMessage peerId infoHash ext).drop 48 = peerId := by
  have hih_take : infoHash.take 20 = infoHash := by
    rw [← hih]
    exact List.take_length _
  have hih_drop : infoHash.drop 20 = [] := by
    rw [← hih]
    exact List.drop_length _
  cases ext <;>
    refine ⟨?_, ?_, ?_, ?_, ?_⟩ <;>
      simp [buildHandshakeMessage, protocolBytes, hp, hih,
        List.take_append_eq_append_take, List.drop_append_eq_append_drop,
        hih_take, hih_drop]

/-- Witness for C6: the spec scenario with infohash `20 × 0xAA`, peer id
`20 × 0xBB` and extensions on. -/
theorem buildHandshakeMessage_layout_witness :
    (List.replicate 20 187).length = 20 ∧ (List.replicate 20 170).length = 20 ∧
    ((buildHandshakeMessage (List.replicate 20 187) (List.replicate 20 170)
        true).length = 68 ∧
      (buildHandshakeMessage (List.replicate 20 187) (List.replicate 20 170)
          true).take 20 = 19 :: protocolBytes ∧
      ((buildHandshakeMessage (List.replicate 20 187) (List.replicate 20 170)
            true).drop 20).take 8 = [0, 0, 0, 0, 0, if true then 16 else 0, 0, 0] ∧
      ((buildHandshakeMessage (List.replicate 20 187) (List.replicate 20 170)
            true).drop 28).take 20 = List.replicate 20 170 ∧
      (buildHandshakeMessage (List.replicate 20 187) (List.replicate 20 170)
          true).drop 48 = List.replicate 20 187) :=
  ⟨by decide, by decide,
    buildHandshakeMessage_layout (List.replicate 20 187) (List.replicate 20 170)
      true (by decide) (by decide)⟩

/-- C7: for a piece of computed length `L > 0` the block loop issues
exactly `⌈L / 16384⌉` REQUEST messages; the i-th requests the block at
offset `i * 16384` (strictly ascending), of size 16384 except the final
one, which requests `L - (nBlocks - 1) * 16384`, a size in
`(0, 16384]`. -/
theorem blockRequests_count_and_sizes (pieceIndex L : Nat) (hL : 0 < L) :
    (blockRequests pieceIndex L).length = (L + 16383) / 16384 ∧
    (∀ i, i < (L + 16383) / 16384 →
      (blockRequests pieceIndex L)[i]? =
        some (buildRequestMessage pieceIndex (i * 16384)
          (if i = (L + 16383) / 16384 - 1 then
            L - ((L + 16383) / 16384 - 1) * 16384
          else 16384))) ∧
    0 < L - ((L + 16383) / 16384 - 1) * 16384 ∧
    L - ((L + 16383) / 16384 - 1) * 16384 ≤ 16384 := by
  have hdm := Nat.div_add_mod (L + 16383) 16384
  have hmlt : (L + 16383) % 16384 < 16384 := Nat.mod_lt _ (by norm_num)
  refine ⟨by simp [blockRequests, blockPlan], ?_, ?_, ?_⟩
  · intro i hi
    simp only [blockRequests, blockPlan, List.getElem?_map, List.getElem?_range,
      hi, if_pos, Option.map_some]
    by_cases hlast : i = (L + 16383) / 16384 - 1
    · subst hlast
      simp
    · simp [hlast]
  · have hone : 1 ≤ (L + 16383) / 16384 := by
      rcases Nat.eq_zero_or_pos ((L + 16383) / 16384) with h0 | h1
      · omega
      · omega
    omega
  · omega

/-- Witness for C7: a piece of length 16385 splits into a full block and a
1-byte final block. -/
theorem blockRequests_count_and_sizes_witness :
    0 < 16385 ∧
    ((blockRequests 0 16385).length = (16385 + 16383) / 16384 ∧
      (∀ i, i < (16385 + 16383) / 16384 →
        (blockRequests 0 16385)[i]? =
          some (buildRequestMessage 0 (i * 16384)
            (if i = (16385 + 16383) / 16384 - 1 then
              16385 - ((16385 + 16383) / 16384 - 1) * 16384
            else 16384))) ∧
      0 < 16385 - ((16385 + 16383) / 16384 - 1) * 16384 ∧
      16385 - ((16385 + 16383) / 16384 - 1) * 16384 ≤ 16384) :=
  ⟨by decide, blockRequests_count_and_sizes 0 16385 (by decide)⟩

/-- A list of length at least 6 starts with six explicit elements. -/
theorem six_head_decomp (l : List Nat) (h : 6 ≤ l.length) :
    ∃ a b c d p q, l = a :: b :: c :: d :: p :: q :: l.drop 6 := by
  rcases l with _ | ⟨a, l⟩
  · simp at h
  rcases l with _ | ⟨b, l⟩
  · simp at h
  rcases l with _ | ⟨c, l⟩
  · simp at h
  rcases l with _ | ⟨d, l⟩
  · simp at h
  rcases l with _ | ⟨p, l⟩
  · simp at h
  rcases l with _ | ⟨q, l⟩
  · simp at h
  exact ⟨a, b, c, d, p, q, rfl⟩

/-- When the i-th 6-byte group lies inside the input, `peerAddrAt`
produces the formatted endpoint of that group. -/
theorem peerAddrAt_some (s : List Nat) (i : Nat) (h : i * 6 + 6 ≤ s.length) :
    ∃ a b c d p q,
      s.drop (i * 6) = a :: b :: c :: d :: p :: q :: (s.drop (i * 6)).drop 6 ∧
      peerAddrAt s i = some (addrFormat a b c d p q) := by
  have hlen : 6 ≤ (s.drop (i * 6)).length := by
    simp only [List.length_drop]
    omega
  obtain ⟨a, b, c, d, p, q, hd⟩ := six_head_decomp _ hlen
  refine ⟨a, b, c, d, p, q, hd, ?_⟩
  have hc1 : i * 6 ≤ i * 6 + 6 ∧ i * 6 + 6 ≤ s.length := ⟨by omega, h⟩
  simp only [peerAddrAt, goSliceN, if_pos hc1, Option.bind_some,
    Nat.add_sub_cancel_left]
  rw [hd]
  simp [Option.bind]

/-- The ascending loop of `buildPeerAddresses` collects exactly the values
produced by `peerAddrAt`. -/
theorem buildPeerAddressesLoop_eq (s : List Nat) (g : Nat → String) :
    ∀ n, (∀ i, i < n → peerAddrAt s i = some (g i)) →
      buildPeerAddressesLoop s n = some ((List.range n).map g) := by
  intro n
  induction n with
  | zero => intro _; rfl
  | succ k ih =>
    intro h
    have h1 := ih fun i hi => h i (by omega)
    have h2 := h k (by omega)
    simp [buildPeerAddressesLoop, h1, h2, List.range_succ]

/-- Every group index below `len / 6` yields an endpoint. -/
theorem peerAddrAt_isSome_of_lt (s : List Nat) (i : Nat)
    (hi : i < s.length / 6) : i * 6 + 6 ≤ s.length := by
  have h1 : (i + 1) * 6 ≤ s.length / 6 * 6 :=
    Nat.mul_le_mul_right 6 (Nat.succ_le_of_lt hi)
  have h2 : s.length / 6 * 6 ≤ s.length := Nat.div_mul_le_self _ _
  omega

/-- C8: on a tracker peers string whose length is a multiple of 6,
`buildPeerAddresses` succeeds with exactly `len / 6` endpoint strings,
none dropped, and the i-th endpoint is `a.b.c.d:p` formatted from the
bytes of the i-th 6-byte group, with the port the big-endian 16-bit value
of the last two bytes. -/
theorem buildPeerAddresses_decodes_groups (s : List Nat)
    (h6 : s.length % 6 = 0) :
    ∃ l, buildPeerAddresses s = some l ∧ l.length = s.length / 6 ∧
      ∀ i a b c d p q, i < s.length / 6 →
        s[i * 6]? = some a → s[i * 6 + 1]? = some b →
        s[i * 6 + 2]? = some c → s[i * 6 + 3]? = some d →
        s[i * 6 + 4]? = some p → s[i * 6 + 5]? = some q →
        l[i]? = some (addrFormat a b c d p q) := by
  have hsome : ∀ i, i < s.length / 6 →
      peerAddrAt s i = some ((peerAddrAt s i).getD "") := by
    intro i hi
    obtain ⟨a, b, c, d, p, q, _, he⟩ :=
      peerAddrAt_some s i (peerAddrAt_isSome_of_lt s i hi)
    rw [he]
    rfl
  refine ⟨(List.range (s.length / 6)).map fun i => (peerAddrAt s i).getD "",
    buildPeerAddressesLoop_eq s _ _ hsome, by simp, ?_⟩
  intro i a b c d p q hi ha hb hc hd hp hq
  obtain ⟨a1, b1, c1, d1, p1, q1, hdec, he⟩ :=
    peerAddrAt_some s i (peerAddrAt_isSome_of_lt s i hi)
  have hbyte : ∀ k x, k < 6 → s[i * 6 + k]? = some x →
      (s.drop (i * 6))[k]? = some x := by
    intro k x _ hx
    rw [List.getElem?_drop]
    exact hx
  have ha1 := hbyte 0 a (by omega) (by simpa using ha)
  have hb1 := hbyte 1 b (by omega) hb
  have hc1 := hbyte 2 c (by omega) hc
  have hd1 := hbyte 3 d (by omega) hd
  have hp1 := hbyte 4 p (by omega) hp
  have hq1 := hbyte 5 q (by omega) hq
  rw [hdec] at ha1 hb1 hc1 hd1 hp1 hq1
  simp at ha1 hb1 hc1 hd1 hp1 hq1
  subst ha1 hb1 hc1 hd1 hp1 hq1
  simp only [List.getElem?_map, List.getElem?_range, hi, if_pos]
  simp [he]

/-- Witness for C8: the 12-byte spec example yields the two endpoints
`192.168.1.1:6881` and `10.0.0.1:9000`. -/
theorem buildPeerAddresses_decodes_groups_witness :
    (([192, 168, 1, 1, 26, 225, 10, 0, 0, 1, 35, 40] : List Nat).length % 6 = 0) ∧
    (∃ l, buildPeerAddresses [192, 168, 1, 1, 26, 225, 10, 0, 0, 1, 35, 40] = some l ∧
      l.length = ([192, 168, 1, 1, 26, 225, 10, 0, 0, 1, 35, 40] : List Nat).length / 6 ∧
      ∀ i a b c d p q,
        i < ([192, 168, 1, 1, 26, 225, 10, 0, 0, 1, 35, 40] : List Nat).length / 6 →
        ([192, 168, 1, 1, 26, 225, 10, 0, 0, 1, 35, 40] : List Nat)[i * 6]? = some a →
        ([192, 168, 1, 1, 26, 225, 10, 0, 0, 1, 35, 40] : List Nat)[i * 6 + 1]? = some b →
        ([192, 168, 1, 1, 26, 225, 10, 0, 0, 1, 35, 40] : List Nat)[i * 6 + 2]? = some c →
        ([192, 168, 1, 1, 26, 225, 10, 0, 0, 1, 35, 40] : List Nat)[i * 6 + 3]? = some d →
        ([192, 168, 1, 1, 26, 225, 10, 0, 0, 1, 35, 40] : List Nat)[i * 6 + 4]? = some p →
        ([192, 168, 1, 1, 26, 225, 10, 0, 0, 1, 35, 40] : List Nat)[i * 6 + 5]? = some q →
        l[i]? = some (addrFormat a b c d p q)) :=
  ⟨by decide, buildPeerAddresses_decodes_groups
    [192, 168, 1, 1, 26, 225, 10, 0, 0, 1, 35, 40] (by decide)⟩

/-- Bytes of a group below the truncation point are unchanged by the
truncation. -/
theorem peerAddrAt_take (s : List Nat) (i m : Nat) (hm : i * 6 + 6 ≤ m)
    (hs : i * 6 + 6 ≤ s.length) :
    peerAddrAt (s.take m) i = peerAddrAt s i := by
  have hlen : i * 6 + 6 ≤ (s.take m).length := by
    simp only [List.length_take]
    omega
  obtain ⟨a, b, c, d, p, q, hdec, he⟩ := peerAddrAt_some s i hs
  obtain ⟨a1, b1, c1, d1, p1, q1, hdec1, he1⟩ := peerAddrAt_some (s.take m) i hlen
  have hbytes : ∀ k, k < 6 → ((s.take m).drop (i * 6))[k]? = (s.drop (i * 6))[k]? := by
    intro k hk
    rw [List.getElem?_drop, List.getElem?_drop, List.getElem?_take,
      if_pos (by omega)]
  have h0 := hbytes 0 (by omega)
  have h1 := hbytes 1 (by omega)
  have h2 := hbytes 2 (by omega)
  have h3 := hbytes 3 (by omega)
  have h4 := hbytes 4 (by omega)
  have h5 := hbytes 5 (by omega)
  rw [hdec, hdec1] at h0 h1 h2 h3 h4 h5
  simp at h0 h1 h2 h3 h4 h5
  rw [he, he1, h0, h1, h2, h3, h4, h5]

/-- C10: `buildPeerAddresses` is total: on any input, also one whose
length is not a multiple of 6, it succeeds with exactly `⌊len / 6⌋`
endpoints and its result equals the result on the input truncated to
`⌊len / 6⌋ * 6` bytes — the up-to-5 trailing bytes are silently
ignored. -/
theorem buildPeerAddresses_total_floor (s : List Nat) :
    ∃ l, buildPeerAddresses s = some l ∧ l.length = s.length / 6 ∧
      buildPeerAddresses (s.take (s.length / 6 * 6)) = some l := by
  have hsome : ∀ i, i < s.length / 6 →
      peerAddrAt s i = some ((peerAddrAt s i).getD "") := by
    intro i hi
    obtain ⟨a, b, c, d, p, q, _, he⟩ :=
      peerAddrAt_some s i (peerAddrAt_isSome_of_lt s i hi)
    rw [he]
    rfl
  have htlen : (s.take (s.length / 6 * 6)).length = s.length / 6 * 6 := by
    simp only [List.length_take]
    have := Nat.div_mul_le_self s.length 6
    omega
  have htdiv : (s.take (s.length / 6 * 6)).length / 6 = s.length / 6 := by
    rw [htlen]
    omega
  have htake : ∀ i, i < s.length / 6 →
      peerAddrAt (s.take (s.length / 6 * 6)) i =
        some ((peerAddrAt s i).getD "") := by
    intro i hi
    have hb : i * 6 + 6 ≤ s.length / 6 * 6 := by
      have h1 : (i + 1) * 6 ≤ s.length / 6 * 6 :=
        Nat.mul_le_mul_right 6 (Nat.succ_le_of_lt hi)
      omega
    rw [peerAddrAt_take s i (s.length / 6 * 6) hb
      (peerAddrAt_isSome_of_lt s i hi)]
    exact hsome i hi
  refine ⟨(List.range (s.length / 6)).map fun i => (peerAddrAt s i).getD "",
    buildPeerAddressesLoop_eq s _ _ hsome, by simp, ?_⟩
  show buildPeerAddressesLoop _ ((s.take (s.length / 6 * 6)).length / 6) = _
  rw [htdiv]
  exact buildPeerAddressesLoop_eq (s.take (s.length / 6 * 6)) _ _ htake

/-- Witness for C10: a 13-byte peers string (one trailing byte) yields
2 endpoints, the same as its 12-byte truncation. -/
theorem buildPeerAddresses_total_floor_witness :
    ∃ l,
      buildPeerAddresses [192, 168, 1, 1, 26, 225, 10, 0, 0, 1, 35, 40, 7] =
        some l ∧
      l.length =
        ([192, 168, 1, 1, 26, 225, 10, 0, 0, 1, 35, 40, 7] : List Nat).length / 6 ∧
      buildPeerAddresses
        (([192, 168, 1, 1, 26, 225, 10, 0, 0, 1, 35, 40, 7] : List Nat).take
          (([192, 168, 1, 1, 26, 225, 10, 0, 0, 1, 35, 40, 7] : List Nat).length / 6 * 6)) =
        some l :=
  buildPeerAddresses_total_floor [192, 168, 1, 1, 26, 225, 10, 0, 0, 1, 35, 40, 7]

end BT
